import Mathlib

/-!
Verification of the common-helper utility library (src/dist/index.js).

Strings are modelled as Lean `String`s and their `List Char` contents; the
JavaScript regexes and loops are translated into structurally recursive
Lean functions. Randomness (Math.random) is modelled by an explicit draw
function `Nat → Nat`: each call site clamps the draw into the range the
JavaScript expression produces, so every outcome of the draws is a value
of the draw function and vice versa. The array shuffle
`sort (() => Math.random() - 0.5)` is modelled by an arbitrary
permutation parameter.
-/

namespace CommonHelper

/-! ## Character classes -/

/-- Matches the regex class [a-z]. -/
def isLowerAZ (c : Char) : Bool := 'a' ≤ c && c ≤ 'z'

/-- Matches the regex class [A-Z]. -/
def isUpperAZ (c : Char) : Bool := 'A' ≤ c && c ≤ 'Z'

/-- Matches the regex class \d, i.e. [0-9]. -/
def isDigit09 (c : Char) : Bool := '0' ≤ c && c ≤ '9'

/-- Matches the regex class [@$!%*?&] used by isValidPassword. -/
def isSpecialPW (c : Char) : Bool :=
  c == '@' || c == '$' || c == '!' || c == '%' || c == '*' || c == '?' || c == '&'

/-- The characters the JavaScript regex class \s matches (ECMAScript
WhiteSpace and LineTerminator). -/
def jsWhitespaceChars : List Char :=
  [' ', '\t', '\n', '\x0d', '\x0b', '\x0c',
   '\u00A0', '\u1680', '\u2000', '\u2001', '\u2002', '\u2003', '\u2004',
   '\u2005', '\u2006', '\u2007', '\u2008', '\u2009', '\u200A',
   '\u2028', '\u2029', '\u202F', '\u205F', '\u3000', '\uFEFF']

/-- Matches the regex class \s. -/
def isJsWhitespace (c : Char) : Bool := jsWhitespaceChars.contains c

/-- Matches the regex `.` (any character except a line terminator). -/
def jsDotChar (c : Char) : Bool :=
  !(c == '\n' || c == '\x0d' || c == '\u2028' || c == '\u2029')

/-- Result of JavaScript String.prototype.trim (both ends, \s set). -/
def jsTrim (s : String) : String :=
  ⟨((s.data.dropWhile isJsWhitespace).reverse.dropWhile isJsWhitespace).reverse⟩

/-! ## isValidPassword (src/dist/index.js lines 440-444)

The JavaScript tests the whole string against
`^(?=.*[a-z])(?=.*[A-Z])(?=.*\d)(?=.*[@$!%*?&])[A-Za-z\d@$!%*?&]{minLength,}$`.
A lookahead `(?=.*[cls])` anchored at the start succeeds iff some character
matching `cls` occurs with only `.`-matchable (non line-terminator)
characters before it, i.e. inside the maximal line-terminator-free prefix.
The body `[A-Za-z\d@$!%*?&]{minLength,}$` consumes the whole string iff
every character is in the class and there are at least minLength of them. -/

/-- Character class of the regex body [A-Za-z\d@$!%*?&]. -/
def passwordBodyChar (c : Char) : Bool :=
  isLowerAZ c || isUpperAZ c || isDigit09 c || isSpecialPW c

/-- Semantics of the anchored lookahead (?=.*[cls]). -/
def lookaheadDotStar (cls : Char → Bool) (l : List Char) : Bool :=
  (l.takeWhile jsDotChar).any cls

/-- Translation of isValidPassword. -/
def isValidPassword (password : String) (minLength : Nat := 8) : Bool :=
  lookaheadDotStar isLowerAZ password.data &&
  lookaheadDotStar isUpperAZ password.data &&
  lookaheadDotStar isDigit09 password.data &&
  lookaheadDotStar isSpecialPW password.data &&
  password.data.all passwordBodyChar &&
  decide (minLength ≤ password.data.length)

/-! ## isValidCreditCard (src/dist/index.js lines 464-486) -/

/-- Result of the two global replaces of the source: first every \s+ run,
then every dash, is removed. -/
def stripWsAndDashes (s : String) : List Char :=
  s.data.filter (fun c => !isJsWhitespace c && !(c == '-'))

/-- Numeric value of a decimal digit character (parseInt on one digit). -/
def charDigit (c : Char) : Nat := c.toNat - '0'.toNat

/-- The Luhn loop of the source, walking the digit list from the rightmost
digit (the list argument is already reversed): `isEven` starts false and
toggles each step; when it is true the digit is doubled and reduced by 9
if the doubled value exceeds 9. -/
def luhnSum : List Nat → Bool → Nat
  | [], _ => 0
  | d :: rest, isEven =>
    (if isEven then (if d * 2 > 9 then d * 2 - 9 else d * 2) else d) +
      luhnSum rest (!isEven)

/-- Translation of isValidCreditCard. -/
def isValidCreditCard (cardNumber : String) : Bool :=
  let cleaned := stripWsAndDashes cardNumber
  if !(cleaned.all isDigit09 && decide (13 ≤ cleaned.length) &&
       decide (cleaned.length ≤ 19)) then
    false
  else
    luhnSum (cleaned.reverse.map charDigit) false % 10 == 0

/-! Spec-side formulations for claims C3 and C4, written from the claims'
words, to be compared with the translations above. -/

/-- Result of removing all space and dash characters, as claim C4 words it
("removing all spaces and dashes"). -/
def stripSpacesAndDashes (s : String) : List Char :=
  s.data.filter (fun c => !(c == ' ') && !(c == '-'))

/-- Doubling step of the Luhn checksum as the spec words it: double the
digit, subtract 9 if the doubled value exceeds 9. -/
def doubleAdjust (d : Nat) : Nat := if d * 2 > 9 then d * 2 - 9 else d * 2

/-- Luhn total as the spec words it, on the reversed digit list: every
second digit counting from the rightmost (positions 1, 3, 5, ... of the
reversed list) is doubled-and-adjusted. -/
def luhnSpecSum : List Nat → Nat
  | [] => 0
  | [d] => d
  | d :: e :: rest => d + doubleAdjust e + luhnSpecSum rest

/-- Claim C4's stated acceptance condition over a cleaned digit list. -/
def creditCardCondition (cleaned : List Char) : Prop :=
  (∀ c ∈ cleaned, isDigit09 c = true) ∧ 13 ≤ cleaned.length ∧
    cleaned.length ≤ 19 ∧ luhnSpecSum (cleaned.reverse.map charDigit) % 10 = 0

instance (cleaned : List Char) : Decidable (creditCardCondition cleaned) := by
  unfold creditCardCondition; infer_instance

/-- Claim C3's amended acceptance condition: at least minLength characters,
every character in the permitted set [A-Za-z0-9@$!%*?&], and at least one
character of each of the four required classes. -/
def passwordCondition (p : String) (minLength : Nat) : Prop :=
  minLength ≤ p.length ∧ (∀ c ∈ p.data, passwordBodyChar c = true) ∧
    (∃ c ∈ p.data, isLowerAZ c = true) ∧ (∃ c ∈ p.data, isUpperAZ c = true) ∧
    (∃ c ∈ p.data, isDigit09 c = true) ∧ (∃ c ∈ p.data, isSpecialPW c = true)

instance (p : String) (minLength : Nat) : Decidable (passwordCondition p minLength) := by
  unfold passwordCondition; infer_instance

/-! ## throttle (src/dist/index.js lines 384-393)

The wrapper closes over a boolean gate `inThrottle`; a call while the gate
is clear runs the action synchronously and schedules the gate to clear
again `limit` milliseconds later. We model the closure state as the
optional expiry time of the active cooldown, and a chronological call
sequence as a list of (time, argument) pairs. The run returns the
(time, argument) pairs at which the underlying action actually executed. -/

/-- One wrapper invocation at `e.1` with argument `e.2`: next state and the
executed call, if any. -/
def throttleStep (limit : Nat) (st : Option Nat) (e : Nat × α) :
    Option Nat × Option (Nat × α) :=
  match st with
  | none => (some (e.1 + limit), some e)
  | some expiry =>
    if e.1 < expiry then (some expiry, none)
    else (some (e.1 + limit), some e)

/-- Folds `throttleStep` over the calls, collecting executed calls. -/
def throttleRunAux (limit : Nat) (st : Option Nat) : List (Nat × α) → List (Nat × α)
  | [] => []
  | e :: rest =>
    match throttleStep limit st e with
    | (st2, some x) => x :: throttleRunAux limit st2 rest
    | (st2, none) => throttleRunAux limit st2 rest

/-- The calls a throttled wrapper actually executes, starting from the
fresh state right after construction. -/
def throttleRun (limit : Nat) (calls : List (Nat × α)) : List (Nat × α) :=
  throttleRunAux limit none calls

/-! ## debounce (src/dist/index.js lines 371-377)

The wrapper keeps one timeout handle; each call clears it and schedules
the action with the call's arguments `delay` milliseconds later. We model
the closure state as the optional pending (fire time, argument) pair. A
pending timer whose fire time has been reached before the next call has
already executed (clearTimeout on an elapsed timer is a no-op); at the
end of the call sequence the remaining pending timer fires. The run
returns the (fire time, argument) pairs of the executed actions. -/

/-- Folds the calls over the pending-timer state. -/
def debounceRunAux (delay : Nat) (pending : Option (Nat × α)) :
    List (Nat × α) → List (Nat × α)
  | [] =>
    match pending with
    | none => []
    | some p => [p]
  | (t, a) :: rest =>
    match pending with
    | none => debounceRunAux delay (some (t + delay, a)) rest
    | some (ft, b) =>
      if ft ≤ t then (ft, b) :: debounceRunAux delay (some (t + delay, a)) rest
      else debounceRunAux delay (some (t + delay, a)) rest

/-- The actions a debounced wrapper ends up executing for a chronological
call sequence, starting with no pending timer. -/
def debounceRun (delay : Nat) (calls : List (Nat × α)) : List (Nat × α) :=
  debounceRunAux delay none calls

/-! ## generateCoupon (src/dist/index.js lines 313-337) -/

/-- The options object, with the source's default values. The source's
`prefix` and `suffix` fields are named `pre` and `suf` here. -/
structure CouponOptions where
  length : Nat := 8
  pre : String := ""
  suf : String := ""
  includeNumbers : Bool := true
  includeUppercase : Bool := true
  includeLowercase : Bool := false
  includeSpecialChars : Bool := false
deriving DecidableEq

def couponNumbers : String := "0123456789"
def couponUppercase : String := "ABCDEFGHIJKLMNOPQRSTUVWXYZ"
def couponLowercase : String := "abcdefghijklmnopqrstuvwxyz"
def couponSpecial : String := "!@#$%^&*()_+-=[]\x7b\x7d|;:,.<>?"

/-- The candidate alphabet: concatenation of the selected classes. -/
def couponChars (o : CouponOptions) : String :=
  (if o.includeNumbers then couponNumbers else "") ++
  (if o.includeUppercase then couponUppercase else "") ++
  (if o.includeLowercase then couponLowercase else "") ++
  (if o.includeSpecialChars then couponSpecial else "")

/-- Removal of every \s character (the final `.replace` of the source, which
deletes each whitespace run). -/
def stripJsWhitespace (s : String) : String :=
  ⟨s.data.filter (fun c => !isJsWhitespace c)⟩

/-- Translation of generateCoupon. `draws i` models the i-th Math.random
draw; `floor (random * chars.length)` is any index below `chars.length`,
rendered here as `draws i % chars.length`. The throw becomes an error
value. -/
def generateCoupon (options : CouponOptions) (draws : Nat → Nat) :
    Except String String :=
  let chars := couponChars options
  if chars = "" then
    Except.error "At least one character type must be included"
  else
    let body : List Char :=
      (List.range options.length).map
        (fun i => chars.data.getD (draws i % chars.data.length) ' ')
    Except.ok (stripJsWhitespace (options.pre ++ ⟨body⟩ ++ options.suf))

/-! ## generateRandomPassword (src/dist/index.js lines 343-359) -/

/-- The fixed combined charset of generateRandomPassword: 26 lowercase,
26 uppercase, 10 digits, 8 symbols (indices 62-69). -/
def pwCharset : List Char :=
  "abcdefghijklmnopqrstuvwxyzABCDEFGHIJKLMNOPQRSTUVWXYZ0123456789!@#$%&*?".data

/-- The source's `randomChar(min, max)`: charset index
`floor (random * (max - min + 1)) + min`; the random factor is modelled by
`k % (max - min + 1)`. -/
def randomChar (lo hi : Nat) (k : Nat) : Char :=
  pwCharset.getD (lo + k % (hi - lo + 1)) ' '

/-- Translation of generateRandomPassword. The while loop pushes fill
characters until the array length reaches `length` (so it pushes
`length - 4` of them, none when `length ≤ 4`); the final
`sort (() => Math.random() - 0.5)` rearranges the array and is modelled
by the permutation parameter `shuffle`. -/
def generateRandomPassword (length : Nat) (draws : Nat → Nat)
    (shuffle : List Char → List Char) : String :=
  let base : List Char :=
    [randomChar 0 25 (draws 0),
     randomChar 26 51 (draws 1),
     randomChar 52 61 (draws 2),
     randomChar 62 68 (draws 3)]
  let fill : List Char :=
    (List.range (length - 4)).map
      (fun i => randomChar 0 (pwCharset.length - 1) (draws (4 + i)))
  ⟨shuffle (base ++ fill)⟩

/-- The fixed symbol section of the charset (its tail from index 62). -/
def pwSymbols : List Char := "!@#$%&*?".data

/-! ## formatCurrency (src/dist/index.js lines 197-199) and the
CURRENCY_SYMBOLS table of src/unnamed/part_002 -/

def CURRENCY_SYMBOLS : List (String × String) :=
  [("USD", "$"), ("EUR", "€"), ("GBP", "£"), ("JPY", "¥"), ("CAD", "C$"),
   ("AUD", "A$"), ("CHF", "CHF"), ("CNY", "¥"), ("INR", "₹"), ("KRW", "₩"),
   ("RUB", "₽"), ("BRL", "R$"), ("MXN", "$"), ("SGD", "S$"), ("HKD", "HK$"),
   ("SEK", "kr"), ("NOK", "kr"), ("DKK", "kr"), ("PLN", "zł"), ("CZK", "Kč"),
   ("HUF", "Ft"), ("RON", "lei"), ("BGN", "лв"), ("HRK", "kn"),
   ("RSD", "дин."), ("UAH", "₴"), ("TRY", "₺"), ("ILS", "₪"), ("AED", "د.إ"),
   ("SAR", "ر.س"), ("QAR", "ر.ق"), ("KWD", "د.ك"), ("BHD", ".د.ب"),
   ("OMR", "ر.ع."), ("JOD", "د.ا"), ("LBP", "ل.ل"), ("EGP", "ج.م"),
   ("ZAR", "R"), ("NGN", "₦"), ("KES", "KSh"), ("GHS", "GH₵"),
   ("UGX", "USh"), ("TZS", "TSh"), ("ZMW", "ZK"), ("BWP", "P"),
   ("MUR", "₨"), ("MAD", "د.م."), ("TND", "د.ت"), ("DZD", "د.ج"),
   ("LYD", "ل.د"), ("SDG", "ج.س."), ("ETB", "Br"), ("DJF", "Fdj"),
   ("KMF", "CF"), ("MGA", "Ar"), ("BIF", "FBu"), ("RWF", "FRw"),
   ("MWK", "MK"), ("ZWL", "Z$")]

/-- Translation of formatCurrency: template interpolation of the indexed
table entry. Indexing a missing key yields `undefined`, and interpolating
`undefined` yields the string "undefined". -/
def formatCurrency (currency : String) : String :=
  match CURRENCY_SYMBOLS.lookup currency with
  | some sym => sym
  | none => "undefined"

/-! ## buildFilters (src/dist/index.js lines 262-287)

The input is a JavaScript object of arbitrary values; we model the values
that matter to the code (null, undefined, strings, and numbers standing
for any non-string value) and the object as an association list in key
insertion order with distinct keys. `Object.keys(...).forEach` iterates
in that order; `parsedFilters[key] = v` updates an existing key in place
or appends a new one. Calling `.trim()` on a truthy non-string value
raises a TypeError, modelled as an error value. -/

inductive Value where
  | null : Value
  | undef : Value
  | str : String → Value
  | num : Int → Value
deriving DecidableEq

instance exceptValDecEq :
    DecidableEq (Except String (List (String × Value))) := fun a b =>
  match a, b with
  | Except.error e, Except.error f =>
    if h : e = f then isTrue (by rw [h])
    else isFalse (fun hh => h (Except.error.inj hh))
  | Except.error _, Except.ok _ => isFalse (fun hh => Except.noConfusion hh)
  | Except.ok _, Except.error _ => isFalse (fun hh => Except.noConfusion hh)
  | Except.ok x, Except.ok y =>
    if h : x = y then isTrue (by rw [h])
    else isFalse (fun hh => h (Except.ok.inj hh))

/-- JavaScript truthiness of a modelled value. -/
def truthy : Value → Bool
  | Value.null => false
  | Value.undef => false
  | Value.str s => decide (s ≠ "")
  | Value.num n => decide (n ≠ 0)

/-- Property-write on an object: keep the position of an existing key,
append a new one. -/
def setKey : List (String × Value) → String → Value → List (String × Value)
  | [], k, v => [(k, v)]
  | (k', v') :: rest, k, v =>
    if k' = k then (k, v) :: rest else (k', v') :: setKey rest k v

/-- Reading `filters.k`: the value of an absent key is undefined. -/
def valueOf (filters : List (String × Value)) (k : String) : Value :=
  (filters.lookup k).getD Value.undef

/-- The generic branch's keep test: `value !== null && value !== undefined
&& value !== ''`. -/
def keepValue (v : Value) : Prop :=
  v ≠ Value.null ∧ v ≠ Value.undef ∧ v ≠ Value.str ""

instance (v : Value) : Decidable (keepValue v) := by
  unfold keepValue; infer_instance

/-- The generic branch's stored value: trim a string, keep anything else. -/
def trimValue : Value → Value
  | Value.str s => Value.str (jsTrim s)
  | v => v

/-- The final generic branch of one iteration: drop null, undefined and
the empty string, trim a kept string. -/
def stepFiltersGeneric (acc : List (String × Value)) (kv : String × Value) :
    Except String (List (String × Value)) :=
  if keepValue kv.2 then
    Except.ok (setKey acc kv.1 (trimValue kv.2))
  else
    Except.ok acc

/-- One iteration of the forEach body for the entry `kv` of `filters`:
the four special-key writes (the locate check appears twice in the
source, identically), then the generic write for the iteration's own
key. -/
def stepFilters (filters : List (String × Value))
    (acc : List (String × Value)) (kv : String × Value) :
    Except String (List (String × Value)) :=
  let kyc := valueOf filters "kyc_status"
  let acc := if truthy kyc then setKey acc "kyc_status" kyc else acc
  let sf := valueOf filters "sortField"
  let acc := if truthy sf then setKey acc "sortField" sf else acc
  let sd := valueOf filters "sortDirection"
  let acc := if truthy sd then setKey acc "sortDirection" sd else acc
  match valueOf filters "locate", truthy (valueOf filters "locate") with
  | _, false =>
    stepFiltersGeneric acc kv
  | Value.str s, true =>
    let acc := if jsTrim s ≠ "" then setKey acc "locate" (Value.str (jsTrim s)) else acc
    let acc := if jsTrim s ≠ "" then setKey acc "locate" (Value.str (jsTrim s)) else acc
    stepFiltersGeneric acc kv
  | _, true => Except.error "TypeError: trim is not a function"

/-- Translation of buildFilters. -/
def buildFilters (filters : List (String × Value)) :
    Except String (List (String × Value)) :=
  filters.foldlM (stepFilters filters) []

/-- Claim C8's stated result: drop each key whose value is null, undefined
or the empty string, trim each remaining string value. -/
def cleanFilters (filters : List (String × Value)) : List (String × Value) :=
  (filters.filter (fun kv => decide (keepValue kv.2))).map
    (fun kv => (kv.1, trimValue kv.2))

/-- A value whose string content carries no leading or trailing
whitespace (non-strings qualify): the restriction on the three special
keys under which the redundant untrimmed special-key writes of the source
coincide with the trimmed generic write. -/
def pretrimmed : Value → Bool
  | Value.str s => jsTrim s == s
  | _ => true

/-- A locate value on which the source's `.trim()` call cannot raise: a
truthy locate must be a string, so a number there must be zero. -/
def locateSafe : Value → Bool
  | Value.num n => n == 0
  | _ => true

/-- The key the locate branch writes, by the locate value: a truthy
string with a non-empty trim. -/
def locateWrites : Value → List String
  | Value.str s => if s ≠ "" ∧ jsTrim s ≠ "" then ["locate"] else []
  | Value.null => []
  | Value.undef => []
  | Value.num _ => []

/-- The special keys one iteration of the forEach body writes, with the
conditions of the source's four special branches. -/
def specialWrites (filters : List (String × Value)) : List String :=
  (if truthy (valueOf filters "kyc_status") then ["kyc_status"] else []) ++
  (if truthy (valueOf filters "sortField") then ["sortField"] else []) ++
  (if truthy (valueOf filters "sortDirection") then ["sortDirection"] else []) ++
  locateWrites (valueOf filters "locate")

/-- All keys one iteration writes: the special keys plus the iteration's
own key when its value passes the generic keep test. -/
def stepWrites (filters : List (String × Value)) (kv : String × Value) :
    List String :=
  specialWrites filters ++ (if keepValue kv.2 then [kv.1] else [])

/-! ## truncate (src/dist/index.js lines 90-107) -/

/-- JavaScript `text.slice(-n)` for a non-negative count `n`: the last `n`
characters, except that `-0` is `0` and `slice(0)` is the whole string. -/
def jsSliceLast (l : List Char) (n : Nat) : List Char :=
  if n = 0 then l else l.drop (l.length - n)

/-- Translation of truncate. An empty text is falsy and returns "". In
center mode the replacement is the literal nine-asterisk string; in end
mode `appendText` is used. -/
def truncate (text : String) (startLength : Nat := 3) (endLength : Nat := 4)
    (appendText : String := "...") (appendPosition : String := "center") :
    String :=
  if text = "" then ""
  else if appendPosition = "center" then
    if text.length ≤ startLength + endLength + 3 then text
    else ⟨text.data.take startLength⟩ ++ "*********" ++ ⟨jsSliceLast text.data endLength⟩
  else if appendPosition = "end" then
    if text.length ≤ startLength then text
    else ⟨text.data.take startLength⟩ ++ appendText
  else text

/-! ## Theorems -/

/-- Every character of the password regex body class is matched by `.`
(none of them is a line terminator). -/
theorem passwordBodyChar_jsDot {c : Char} (h : passwordBodyChar c = true) :
    jsDotChar c = true := by
  cases hd : jsDotChar c with
  | true => rfl
  | false =>
    exfalso
    have hc : c = '\n' ∨ c = '\x0d' ∨ c = ' ' ∨ c = ' ' := by
      simp only [jsDotChar, Bool.not_eq_false', Bool.or_eq_true, beq_iff_eq,
        or_assoc] at hd
      exact hd
    rcases hc with rfl | rfl | rfl | rfl <;> revert h <;> decide

/-- On a string all of whose characters are in the body class, the
line-terminator-free prefix is the whole string. -/
theorem takeWhile_jsDot_of_body {l : List Char}
    (h : l.all passwordBodyChar = true) : l.takeWhile jsDotChar = l := by
  induction l with
  | nil => rfl
  | cons c l ih =>
    rw [List.all_cons, Bool.and_eq_true] at h
    rw [List.takeWhile_cons, passwordBodyChar_jsDot h.1]
    simp [ih h.2]

/-- C3, amended: isValidPassword accepts exactly the strings of at least
minLength characters drawn entirely from [A-Za-z0-9@$!%*?&] that contain
at least one lowercase letter, one uppercase letter, one digit and one of
@$!%*?& — the character set is restricted to that set, in contrast to the
claim's "regardless of which other characters p contains". -/
theorem isValidPassword_iff (p : String) (minLength : Nat) :
    isValidPassword p minLength = true ↔ passwordCondition p minLength := by
  have hlen : p.length = p.data.length := rfl
  unfold isValidPassword passwordCondition lookaheadDotStar
  constructor
  · intro h
    simp only [Bool.and_eq_true, decide_eq_true_eq] at h
    obtain ⟨⟨⟨⟨⟨h1, h2⟩, h3⟩, h4⟩, hall⟩, hmin⟩ := h
    rw [takeWhile_jsDot_of_body hall] at h1 h2 h3 h4
    rw [List.any_eq_true] at h1 h2 h3 h4
    rw [List.all_eq_true] at hall
    exact ⟨hlen ▸ hmin, hall, h1, h2, h3, h4⟩
  · rintro ⟨hmin, hall, h1, h2, h3, h4⟩
    have hallb : p.data.all passwordBodyChar = true := List.all_eq_true.mpr hall
    rw [takeWhile_jsDot_of_body hallb]
    simp only [Bool.and_eq_true, decide_eq_true_eq, List.any_eq_true]
    exact ⟨⟨⟨⟨⟨h1, h2⟩, h3⟩, h4⟩, hallb⟩, hlen ▸ hmin⟩

/-- C3, counterexample: "Aa1@#xyz" has 8 characters and contains a
lowercase letter, an uppercase letter, a digit and a special character,
yet isValidPassword rejects it, because of the character '#'. -/
theorem isValidPassword_charset_cex :
    8 ≤ "Aa1@#xyz".length ∧
    ("Aa1@#xyz".data.any isLowerAZ = true ∧ "Aa1@#xyz".data.any isUpperAZ = true ∧
     "Aa1@#xyz".data.any isDigit09 = true ∧ "Aa1@#xyz".data.any isSpecialPW = true) ∧
    isValidPassword "Aa1@#xyz" 8 = false := by decide

/-- Two steps of the source's Luhn loop from an even (non-doubling)
position. -/
theorem luhnSum_cons_cons (d e : Nat) (rest : List Nat) :
    luhnSum (d :: e :: rest) false = d + doubleAdjust e + luhnSum rest false := by
  simp [luhnSum, doubleAdjust, Nat.add_assoc]

/-- The source's toggling Luhn loop computes the checksum as the spec
words it. -/
theorem luhnSum_eq_spec : ∀ l : List Nat, luhnSum l false = luhnSpecSum l
  | [] => rfl
  | [d] => by simp [luhnSum, luhnSpecSum]
  | d :: e :: rest => by
    rw [luhnSum_cons_cons, luhnSum_eq_spec rest]
    rfl

/-- C4, amended: isValidCreditCard accepts exactly the strings that, once
all whitespace (not only spaces) and dashes are removed, consist of 13 to
19 decimal digits whose Luhn checksum is divisible by 10; and the two
quoted examples evaluate as the claim states. -/
theorem isValidCreditCard_iff :
    (∀ s : String,
        isValidCreditCard s = true ↔ creditCardCondition (stripWsAndDashes s)) ∧
    isValidCreditCard "4532015112830366" = true ∧
    isValidCreditCard "1234567890123456" = false := by
  refine ⟨fun s => ?_, by decide, by decide⟩
  unfold isValidCreditCard creditCardCondition
  cases hg : (stripWsAndDashes s).all isDigit09 &&
      decide (13 ≤ (stripWsAndDashes s).length) &&
      decide ((stripWsAndDashes s).length ≤ 19) with
  | false =>
    simp only [hg, Bool.not_false, if_pos]
    constructor
    · intro h; cases h
    · rintro ⟨hall, h13, h19, _⟩
      rw [Bool.and_eq_false_iff, Bool.and_eq_false_iff] at hg
      rcases hg with (hg | hg) | hg
      · exact absurd (List.all_eq_true.mpr hall) (by simp [hg])
      · simp only [decide_eq_false_iff_not] at hg; exact (hg h13).elim
      · simp only [decide_eq_false_iff_not] at hg; exact (hg h19).elim
  | true =>
    simp only [hg, Bool.not_true, Bool.false_eq_true, if_false, beq_iff_eq]
    rw [Bool.and_eq_true, Bool.and_eq_true] at hg
    obtain ⟨⟨hall, h13⟩, h19⟩ := hg
    rw [luhnSum_eq_spec]
    constructor
    · intro h
      exact ⟨List.all_eq_true.mp hall, of_decide_eq_true h13,
        of_decide_eq_true h19, h⟩
    · rintro ⟨_, _, _, h⟩; exact h

/-- C4, counterexample: the string "4532015112830366" followed by a tab is
accepted by the code (the \s+ replace removes the tab), while the claim's
condition — remove only spaces and dashes, then require decimal digits —
rejects it. -/
theorem isValidCreditCard_whitespace_cex :
    isValidCreditCard "4532015112830366\t" = true ∧
    ¬ creditCardCondition (stripSpacesAndDashes "4532015112830366\t") := by
  exact ⟨by decide, by decide⟩

/-- During an active cooldown every call is dropped and the state is
unchanged, so a whole burst inside the window produces no executions. -/
theorem throttleRunAux_cooldown {α : Type} (limit e : Nat)
    (rest : List (Nat × α)) (h : ∀ p ∈ rest, p.1 < e) :
    throttleRunAux limit (some e) rest = [] := by
  induction rest with
  | nil => rfl
  | cons p rest ih =>
    have hp : p.1 < e := h p (List.mem_cons_self p rest)
    have hstep : throttleStep limit (some e) p = (some e, none) := by
      simp [throttleStep, hp]
    rw [throttleRunAux, hstep]
    show throttleRunAux limit (some e) rest = []
    exact ih (fun q hq => h q (List.mem_cons_of_mem p hq))

/-- C1: a throttled wrapper executes the action synchronously on a call in
the fresh state (opening a cooldown of limit), likewise on a call at or
after the expiry of a cooldown, drops without effect any call strictly
inside an active cooldown, and a burst that starts in the fresh state and
stays within one limit window executes exactly the burst's first call,
with the first call's arguments. -/
theorem throttle_leading_edge {α : Type} (limit : Nat) :
    (∀ (t : Nat) (a : α),
        throttleStep limit none (t, a) = (some (t + limit), some (t, a))) ∧
    (∀ (t e : Nat) (a : α), e ≤ t →
        throttleStep limit (some e) (t, a) = (some (t + limit), some (t, a))) ∧
    (∀ (t e : Nat) (a : α), t < e →
        throttleStep limit (some e) (t, a) = (some e, none)) ∧
    (∀ (t0 : Nat) (a0 : α) (rest : List (Nat × α)),
        (∀ p ∈ rest, p.1 < t0 + limit) →
        throttleRun limit ((t0, a0) :: rest) = [(t0, a0)]) := by
  refine ⟨fun t a => rfl, fun t e a h => ?_, fun t e a h => ?_, fun t0 a0 rest h => ?_⟩
  · simp [throttleStep, Nat.not_lt.mpr h]
  · simp [throttleStep, h]
  · unfold throttleRun
    have hstep : throttleStep limit none (t0, a0) =
        (some (t0 + limit), some (t0, a0)) := rfl
    rw [throttleRunAux, hstep]
    show (t0, a0) :: throttleRunAux limit (some (t0 + limit)) rest = [(t0, a0)]
    rw [throttleRunAux_cooldown limit (t0 + limit) rest h]

/-- C1, witness: a burst of three calls inside one window of 10 executes
only the first call. -/
theorem throttle_leading_edge_witness :
    throttleRun 10 [(0, 1), (3, 2), (5, 3)] = [(0, 1)] := by
  have h := (throttle_leading_edge (α := Nat) 10).2.2.2 0 1 [(3, 2), (5, 3)]
    (by decide)
  exact h

/-- A chain of calls each arriving strictly before the pending timer of
the previous call fires keeps cancelling and rescheduling; the survivor is
the last call's timer. -/
theorem debounceRunAux_chain {α : Type} (delay : Nat) :
    ∀ (l : List (Nat × α)) (t : Nat) (a : α),
      List.Chain (fun p q => q.1 < p.1 + delay) (t, a) l →
      debounceRunAux delay (some (t + delay, a)) l =
        [((l.getLastD (t, a)).1 + delay, (l.getLastD (t, a)).2)]
  | [], t, a, _ => rfl
  | (t', a') :: l, t, a, h => by
    obtain ⟨hlt, hchain⟩ := List.chain_cons.mp h
    rw [debounceRunAux, if_neg (by omega), List.getLastD_cons]
    exact debounceRunAux_chain delay l t' a' hchain

/-- C2: when every consecutive pair of calls is separated by less than
delay, the action executes exactly once, at the last call's time plus
delay, with the last call's arguments. -/
theorem debounce_trailing_edge {α : Type} (delay t : Nat) (a : α)
    (l : List (Nat × α))
    (h : List.Chain (fun p q => q.1 < p.1 + delay) (t, a) l) :
    debounceRun delay ((t, a) :: l) =
      [((l.getLastD (t, a)).1 + delay, (l.getLastD (t, a)).2)] := by
  have h0 : debounceRun delay ((t, a) :: l) =
      debounceRunAux delay (some (t + delay, a)) l := rfl
  rw [h0]
  exact debounceRunAux_chain delay l t a h

/-- C2, witness: three calls at 0, 5 and 9 with delay 10 execute the
action once, at 19, with the third call's argument. -/
theorem debounce_trailing_edge_witness :
    debounceRun 10 [(0, 1), (5, 2), (9, 3)] = [(19, 3)] := by
  have h := debounce_trailing_edge 10 0 1 [(5, 2), (9, 3)]
    (List.Chain.cons (by decide) (List.Chain.cons (by decide) List.Chain.nil))
  exact h.trans (by decide)

/-- An in-range getD picks an element of the list. -/
theorem getD_mem_of_lt : ∀ (l : List Char) (i : Nat), i < l.length →
    ∀ d : Char, l.getD i d ∈ l
  | c :: l, 0, _, _ => List.mem_cons_self c l
  | c :: l, i + 1, h, d =>
    List.mem_cons_of_mem c (getD_mem_of_lt l i (by simpa using h) d)

/-- The coupon alphabet is empty exactly when all four class flags are
off. -/
theorem couponChars_eq_empty_iff (o : CouponOptions) :
    couponChars o = "" ↔
      o.includeNumbers = false ∧ o.includeUppercase = false ∧
      o.includeLowercase = false ∧ o.includeSpecialChars = false := by
  have key : ∀ b1 b2 b3 b4 : Bool,
      ((if b1 then couponNumbers else "") ++ (if b2 then couponUppercase else "") ++
        (if b3 then couponLowercase else "") ++ (if b4 then couponSpecial else "") = "") ↔
        (b1 = false ∧ b2 = false ∧ b3 = false ∧ b4 = false) := by
    intro b1 b2 b3 b4
    cases b1 <;> cases b2 <;> cases b3 <;> cases b4 <;> decide
  exact key o.includeNumbers o.includeUppercase o.includeLowercase o.includeSpecialChars

/-- Every character of the digits-and-uppercase alphabet is a digit or an
uppercase letter, and none is whitespace. -/
theorem digitsUpper_chars :
    ∀ c ∈ "0123456789ABCDEFGHIJKLMNOPQRSTUVWXYZ".data,
      (isDigit09 c = true ∨ isUpperAZ c = true) ∧ isJsWhitespace c = false := by
  decide

/-- C5: generateCoupon raises its configuration error exactly when all
four include flags are off; otherwise it returns prefix ++ body ++ suffix
with all whitespace stripped, where body is exactly `length` characters
drawn from the selected alphabet; and with length 10, numbers and
uppercase the result always has 10 characters, all digits or uppercase
letters. -/
theorem generateCoupon_spec :
    (∀ (o : CouponOptions) (draws : Nat → Nat),
        generateCoupon o draws =
            Except.error "At least one character type must be included" ↔
          o.includeNumbers = false ∧ o.includeUppercase = false ∧
          o.includeLowercase = false ∧ o.includeSpecialChars = false) ∧
    (∀ (o : CouponOptions) (draws : Nat → Nat) (out : String),
        generateCoupon o draws = Except.ok out →
        ∃ body : List Char,
          out = stripJsWhitespace (o.pre ++ ⟨body⟩ ++ o.suf) ∧
          body.length = o.length ∧ ∀ c ∈ body, c ∈ (couponChars o).data) ∧
    (∀ draws : Nat → Nat,
        ∃ out : String,
          generateCoupon (CouponOptions.mk 10 "" "" true true false false) draws =
            Except.ok out ∧
          out.length = 10 ∧
          ∀ c ∈ out.data, isDigit09 c = true ∨ isUpperAZ c = true) := by
  have hlenpos : ∀ o : CouponOptions, couponChars o ≠ "" →
      0 < (couponChars o).data.length := by
    intro o hc
    cases hd : (couponChars o).data with
    | nil => exact absurd (String.ext hd) hc
    | cons c l => simp [hd]
  refine ⟨fun o draws => ?_, fun o draws out h => ?_, fun draws => ?_⟩
  · by_cases hc : couponChars o = ""
    · simp only [generateCoupon, if_pos hc]
      exact ⟨fun _ => (couponChars_eq_empty_iff o).mp hc, fun _ => trivial⟩
    · simp only [generateCoupon, if_neg hc]
      constructor
      · intro h; exact absurd h (by simp)
      · intro hflags
        exact absurd ((couponChars_eq_empty_iff o).mpr hflags) hc
  · by_cases hc : couponChars o = ""
    · simp only [generateCoupon, if_pos hc] at h
      exact absurd h (by simp)
    · simp only [generateCoupon, if_neg hc, Except.ok.injEq] at h
      refine ⟨(List.range o.length).map
        (fun i => (couponChars o).data.getD
          (draws i % (couponChars o).data.length) ' '), h.symm, by simp, ?_⟩
      intro c hcmem
      rw [List.mem_map] at hcmem
      obtain ⟨i, _, rfl⟩ := hcmem
      exact getD_mem_of_lt _ _ (Nat.mod_lt _ (hlenpos o hc)) _
  · have hc : couponChars (CouponOptions.mk 10 "" "" true true false false) ≠ "" := by
      decide
    have hchars : couponChars (CouponOptions.mk 10 "" "" true true false false) =
        "0123456789ABCDEFGHIJKLMNOPQRSTUVWXYZ" := rfl
    simp only [generateCoupon, if_neg hc]
    set body : List Char := (List.range 10).map
      (fun i => (couponChars (CouponOptions.mk 10 "" "" true true false false)).data.getD
        (draws i % (couponChars (CouponOptions.mk 10 "" "" true true false false)).data.length)
        ' ') with hbody
    have hmem : ∀ c ∈ body, c ∈ "0123456789ABCDEFGHIJKLMNOPQRSTUVWXYZ".data := by
      intro c hcmem
      rw [hbody, List.mem_map] at hcmem
      obtain ⟨i, _, rfl⟩ := hcmem
      rw [hchars]
      exact getD_mem_of_lt _ _ (Nat.mod_lt _ (by decide)) _
    have hout : stripJsWhitespace ("" ++ (⟨body⟩ : String) ++ "") = (⟨body⟩ : String) := by
      apply String.ext
      show (("" ++ (⟨body⟩ : String) ++ "").data.filter
          (fun c => !isJsWhitespace c)) = body
      rw [String.data_append, String.data_append]
      show (([] ++ body ++ []).filter (fun c => !isJsWhitespace c)) = body
      rw [List.nil_append, List.append_nil]
      rw [List.filter_eq_self]
      intro c hcmem
      rw [(digitsUpper_chars c (hmem c hcmem)).2]
      rfl
    refine ⟨_, rfl, ?_, ?_⟩
    · show (stripJsWhitespace ("" ++ (⟨body⟩ : String) ++ "")).length = 10
      rw [hout]
      show body.length = 10
      rw [hbody]; simp
    · intro c hcmem
      have : c ∈ body := by
        have hd : (stripJsWhitespace ("" ++ (⟨body⟩ : String) ++ "")).data = body := by
          rw [hout]
        rw [hd] at hcmem
        exact hcmem
      exact (digitsUpper_chars c (hmem c this)).1

/-- Charset indices 0-25 hold lowercase letters. -/
theorem pwCharset_lower : ∀ j, j < 26 → isLowerAZ (pwCharset.getD j ' ') = true := by
  decide

/-- Charset indices 26-51 hold uppercase letters. -/
theorem pwCharset_upper : ∀ j, j < 26 → isUpperAZ (pwCharset.getD (26 + j) ' ') = true := by
  decide

/-- Charset indices 52-61 hold digits. -/
theorem pwCharset_digit : ∀ j, j < 10 → isDigit09 (pwCharset.getD (52 + j) ' ') = true := by
  decide

/-- Charset indices 62-68 hold symbols of the fixed symbol set. -/
theorem pwCharset_symbol : ∀ j, j < 7 → pwCharset.getD (62 + j) ' ' ∈ pwSymbols := by
  decide

/-- C6: for every requested length, every outcome of the draws and every
shuffle permutation, the password has length max(length, 4) — the length
floors at 4, never truncating the four guaranteed characters — and
contains at least one lowercase letter, one uppercase letter, one digit
and one symbol of the fixed symbol set; length 8 in particular always
yields all four classes in 8 characters. -/
theorem generateRandomPassword_spec (length : Nat) (draws : Nat → Nat)
    (shuffle : List Char → List Char)
    (hperm : ∀ l : List Char, (shuffle l).Perm l) :
    (generateRandomPassword length draws shuffle).length = max length 4 ∧
    (∃ c ∈ (generateRandomPassword length draws shuffle).data, isLowerAZ c = true) ∧
    (∃ c ∈ (generateRandomPassword length draws shuffle).data, isUpperAZ c = true) ∧
    (∃ c ∈ (generateRandomPassword length draws shuffle).data, isDigit09 c = true) ∧
    (∃ c ∈ (generateRandomPassword length draws shuffle).data, c ∈ pwSymbols) := by
  have hpermL := hperm
    ([randomChar 0 25 (draws 0), randomChar 26 51 (draws 1),
      randomChar 52 61 (draws 2), randomChar 62 68 (draws 3)] ++
     (List.range (length - 4)).map
       (fun i => randomChar 0 (pwCharset.length - 1) (draws (4 + i))))
  have hdata : (generateRandomPassword length draws shuffle).data =
      shuffle ([randomChar 0 25 (draws 0), randomChar 26 51 (draws 1),
        randomChar 52 61 (draws 2), randomChar 62 68 (draws 3)] ++
       (List.range (length - 4)).map
         (fun i => randomChar 0 (pwCharset.length - 1) (draws (4 + i)))) := rfl
  have hmem : ∀ c ∈ [randomChar 0 25 (draws 0), randomChar 26 51 (draws 1),
      randomChar 52 61 (draws 2), randomChar 62 68 (draws 3)],
      c ∈ (generateRandomPassword length draws shuffle).data := by
    intro c hc
    rw [hdata, hpermL.mem_iff]
    exact List.mem_append_left _ hc
  refine ⟨?_, ?_, ?_, ?_, ?_⟩
  · show (generateRandomPassword length draws shuffle).data.length = max length 4
    rw [hdata, hpermL.length_eq, List.length_append, List.length_map,
      List.length_range]
    show 4 + (length - 4) = max length 4
    omega
  · refine ⟨randomChar 0 25 (draws 0), hmem _ (by simp), ?_⟩
    show isLowerAZ (pwCharset.getD (0 + draws 0 % (25 - 0 + 1)) ' ') = true
    rw [Nat.zero_add]
    exact pwCharset_lower _ (Nat.mod_lt _ (by decide))
  · refine ⟨randomChar 26 51 (draws 1), hmem _ (by simp), ?_⟩
    show isUpperAZ (pwCharset.getD (26 + draws 1 % (51 - 26 + 1)) ' ') = true
    exact pwCharset_upper _ (Nat.mod_lt _ (by decide))
  · refine ⟨randomChar 52 61 (draws 2), hmem _ (by simp), ?_⟩
    show isDigit09 (pwCharset.getD (52 + draws 2 % (61 - 52 + 1)) ' ') = true
    exact pwCharset_digit _ (Nat.mod_lt _ (by decide))
  · refine ⟨randomChar 62 68 (draws 3), hmem _ (by simp), ?_⟩
    show pwCharset.getD (62 + draws 3 % (68 - 62 + 1)) ' ' ∈ pwSymbols
    exact pwCharset_symbol _ (Nat.mod_lt _ (by decide))

/-- C6, witness: length 8, all draws zero, identity shuffle. -/
theorem generateRandomPassword_spec_witness :
    (generateRandomPassword 8 (fun _ => 0) id).length = max 8 4 ∧
    (∃ c ∈ (generateRandomPassword 8 (fun _ => 0) id).data, isLowerAZ c = true) ∧
    (∃ c ∈ (generateRandomPassword 8 (fun _ => 0) id).data, isUpperAZ c = true) ∧
    (∃ c ∈ (generateRandomPassword 8 (fun _ => 0) id).data, isDigit09 c = true) ∧
    (∃ c ∈ (generateRandomPassword 8 (fun _ => 0) id).data, c ∈ pwSymbols) :=
  generateRandomPassword_spec 8 (fun _ => 0) id (fun l => List.Perm.refl l)

/-- C7: on an unrecognized currency code the source's template
interpolation of the missing table entry returns the literal string
"undefined" — not the input passed through and not the empty string — so
the claimed safe degradation does not hold; a known code still maps to
its symbol. -/
theorem formatCurrency_undefined_bug :
    formatCurrency "XYZ" = "undefined" ∧ formatCurrency "XYZ" ≠ "XYZ" ∧
    formatCurrency "XYZ" ≠ "" ∧ formatCurrency "USD" = "$" := by
  refine ⟨rfl, by decide, by decide, rfl⟩

/-- C9, amended: for a positive endLength and a text longer than
startLength + endLength + 3, center mode keeps the first startLength
characters, inserts exactly nine asterisks ignoring appendText, and keeps
the last endLength characters; end mode appends appendText after the
first startLength characters of any text longer than startLength. For
endLength = 0, slice(-0) is the whole string, so center mode appends the
entire text after the asterisks instead of its last 0 characters. -/
theorem truncate_center_end_spec :
    (∀ (text : String) (s e : Nat) (ap : String), 1 ≤ e →
        s + e + 3 < text.length →
        truncate text s e ap "center" =
          ⟨text.data.take s⟩ ++ "*********" ++
            ⟨text.data.drop (text.data.length - e)⟩) ∧
    (∀ (text : String) (s e : Nat) (ap : String), s < text.length →
        truncate text s e ap "end" = ⟨text.data.take s⟩ ++ ap) := by
  have hne : ∀ text : String, 0 < text.length → text ≠ "" := by
    intro text h heq
    rw [heq] at h
    exact absurd h (by decide)
  constructor
  · intro text s e ap he hlen
    unfold truncate
    rw [if_neg (hne text (by omega)), if_pos rfl, if_neg (by omega)]
    unfold jsSliceLast
    rw [if_neg (by omega)]
  · intro text s e ap hlen
    unfold truncate
    rw [if_neg (hne text (by omega)), if_neg (by decide), if_pos rfl,
      if_neg (by omega)]

/-- C9, counterexample: with endLength = 0 the text "abcdefg" (length 7,
exceeding 3 + 0 + 3) truncates to the first three characters, nine
asterisks, and then the whole text — not its last 0 characters. -/
theorem truncate_zero_end_cex :
    3 + 0 + 3 < "abcdefg".length ∧
    truncate "abcdefg" 3 0 "..." "center" = "abc*********abcdefg" ∧
    "abc*********abcdefg" ≠ "abc*********" := by
  refine ⟨by decide, rfl, by decide⟩

/-- C10: with draws that pick '#' for the guaranteed symbol (and zeros
elsewhere) and the identity shuffle, generateRandomPassword 8 yields
"aA0#aaaa", which isValidPassword rejects: '#' is in the generator's
symbol range but outside the validator's permitted set. -/
theorem generateRandomPassword_fails_validator :
    generateRandomPassword 8 (fun i => if i == 3 then 2 else 0) id = "aA0#aaaa" ∧
    isValidPassword "aA0#aaaa" 8 = false := by
  refine ⟨rfl, by decide⟩

/-- Lookup after a property write: the written key reads the written
value, every other key is unchanged. -/
theorem lookup_setKey (m : List (String × Value)) (k : String) (v : Value)
    (k' : String) :
    (setKey m k v).lookup k' = if k' = k then some v else m.lookup k' := by
  induction m with
  | nil =>
    by_cases h : k' = k
    · simp [setKey, List.lookup_cons, h]
    · simp [setKey, List.lookup_cons, beq_false_of_ne h, h]
  | cons p m ih =>
    obtain ⟨pk, pv⟩ := p
    by_cases h : pk = k
    · subst h
      simp only [setKey, if_pos rfl]
      by_cases h2 : k' = pk
      · simp [List.lookup_cons, h2]
      · simp [List.lookup_cons, beq_false_of_ne h2, h2]
    · simp only [setKey, if_neg h]
      by_cases h2 : k' = pk
      · subst h2
        have hne : ¬ k' = k := fun hh => h hh
        simp [List.lookup_cons, hne]
      · simp [List.lookup_cons, beq_false_of_ne h2, ih]

/-- A pretrimmed value is a fixed point of the generic branch's trim. -/
theorem trimValue_eq_of_pretrimmed {v : Value} (h : pretrimmed v = true) :
    trimValue v = v := by
  cases v with
  | str s =>
    simp only [pretrimmed, beq_iff_eq] at h
    simp [trimValue, h]
  | null => rfl
  | undef => rfl
  | num n => rfl

/-- Every truthy value passes the generic keep test. -/
theorem truthy_keepValue {v : Value} (h : truthy v = true) : keepValue v := by
  cases v with
  | null => exact absurd h (by decide)
  | undef => exact absurd h (by decide)
  | str s =>
    simp only [truthy, decide_eq_true_eq] at h
    exact ⟨by simp, by simp, by simp [h]⟩
  | num n => exact ⟨by simp, by simp, by simp⟩

/-- The write a special-key branch performs reads back as the trimmed
table value: when the value is truthy (and pretrimmed, so the untrimmed
special write and the trimmed generic write agree) the key maps to it,
otherwise nothing changes. -/
theorem specialWrite_lookup (filters : List (String × Value)) (name : String)
    (hpre : pretrimmed (valueOf filters name) = true)
    (acc : List (String × Value)) (k : String) :
    ((if truthy (valueOf filters name) then
        setKey acc name (valueOf filters name) else acc).lookup k) =
      if k ∈ (if truthy (valueOf filters name) then [name] else []) then
        some (trimValue (valueOf filters k))
      else acc.lookup k := by
  by_cases ht : truthy (valueOf filters name) = true
  · rw [if_pos ht, if_pos ht, lookup_setKey]
    by_cases hk : k = name
    · subst hk
      rw [if_pos rfl, if_pos (by simp), trimValue_eq_of_pretrimmed hpre]
    · rw [if_neg hk, if_neg (by simp [hk])]
  · rw [if_neg ht, if_neg ht]
    simp

/-- Two successive write batches that both store the canonical trimmed
value compose to one batch over the concatenated key lists. -/
theorem chainWrites {filters a b c : List (String × Value)}
    {w1 w2 : List String}
    (h1 : ∀ k, b.lookup k = if k ∈ w1 then
        some (trimValue (valueOf filters k)) else a.lookup k)
    (h2 : ∀ k, c.lookup k = if k ∈ w2 then
        some (trimValue (valueOf filters k)) else b.lookup k) :
    ∀ k, c.lookup k = if k ∈ w1 ++ w2 then
        some (trimValue (valueOf filters k)) else a.lookup k := by
  intro k
  rw [h2 k]
  by_cases hk2 : k ∈ w2
  · rw [if_pos hk2, if_pos (List.mem_append_right _ hk2)]
  · rw [if_neg hk2, h1 k]
    by_cases hk1 : k ∈ w1
    · rw [if_pos hk1, if_pos (List.mem_append_left _ hk1)]
    · rw [if_neg hk1, if_neg (by simp [hk1, hk2])]

/-- The generic branch of one iteration: writes the iteration's own key
with the trimmed value exactly when the keep test passes. -/
theorem stepFiltersGeneric_lookup (filters acc : List (String × Value))
    (kv : String × Value) (hv : valueOf filters kv.1 = kv.2) :
    ∃ out, stepFiltersGeneric acc kv = Except.ok out ∧
      ∀ k, out.lookup k =
        if k ∈ (if keepValue kv.2 then [kv.1] else []) then
          some (trimValue (valueOf filters k))
        else acc.lookup k := by
  by_cases hkeep : keepValue kv.2
  · refine ⟨setKey acc kv.1 (trimValue kv.2),
      by simp [stepFiltersGeneric, hkeep], fun k => ?_⟩
    rw [if_pos hkeep, lookup_setKey]
    by_cases hk : k = kv.1
    · subst hk
      rw [if_pos rfl, if_pos (by simp), hv]
    · rw [if_neg hk, if_neg (by simp [hk])]
  · refine ⟨acc, by simp [stepFiltersGeneric, hkeep], fun k => ?_⟩
    rw [if_neg hkeep]
    simp

/-- The source's duplicated locate branch: both identical conditional
writes store the trimmed locate string, which is exactly the canonical
trimmed value of the locate key. -/
theorem locateWrite_lookup (filters b : List (String × Value)) (s : String)
    (hloc : valueOf filters "locate" = Value.str s) (k : String) :
    ((if jsTrim s ≠ "" then
        setKey (if jsTrim s ≠ "" then setKey b "locate" (Value.str (jsTrim s)) else b)
          "locate" (Value.str (jsTrim s))
      else (if jsTrim s ≠ "" then setKey b "locate" (Value.str (jsTrim s)) else b)).lookup k) =
      if k ∈ (if jsTrim s ≠ "" then ["locate"] else []) then
        some (trimValue (valueOf filters k))
      else b.lookup k := by
  by_cases htr : jsTrim s = ""
  · simp [htr]
  · rw [if_pos htr, if_pos htr, if_pos htr, lookup_setKey, lookup_setKey]
    by_cases hk : k = "locate"
    · subst hk
      rw [if_pos rfl, if_pos (by simp), hloc]
      rfl
    · rw [if_neg hk, if_neg hk, if_neg (by simp [hk])]

/-- One full forEach iteration never raises under the locate restriction,
and its writes read back as the canonical trimmed values over the keys of
`stepWrites`. -/
theorem stepFilters_ok (filters : List (String × Value))
    (Hk : pretrimmed (valueOf filters "kyc_status") = true)
    (Hs : pretrimmed (valueOf filters "sortField") = true)
    (Hd : pretrimmed (valueOf filters "sortDirection") = true)
    (Hl : locateSafe (valueOf filters "locate") = true)
    (acc : List (String × Value)) (kv : String × Value)
    (hv : valueOf filters kv.1 = kv.2) :
    ∃ out, stepFilters filters acc kv = Except.ok out ∧
      ∀ k, out.lookup k =
        if k ∈ stepWrites filters kv then some (trimValue (valueOf filters k))
        else acc.lookup k := by
  have h1 := specialWrite_lookup filters "kyc_status" Hk acc
  have h12 := chainWrites h1 (specialWrite_lookup filters "sortField" Hs _)
  have h123 := chainWrites h12 (specialWrite_lookup filters "sortDirection" Hd _)
  set T1 := (if truthy (valueOf filters "kyc_status") then
      setKey acc "kyc_status" (valueOf filters "kyc_status") else acc) with hT1
  set T2 := (if truthy (valueOf filters "sortField") then
      setKey T1 "sortField" (valueOf filters "sortField") else T1) with hT2
  set T3 := (if truthy (valueOf filters "sortDirection") then
      setKey T2 "sortDirection" (valueOf filters "sortDirection") else T2) with hT3
  cases hloc : valueOf filters "locate" with
  | null =>
    have ht : truthy Value.null = false := rfl
    have heq : stepFilters filters acc kv = stepFiltersGeneric T3 kv := by
      simp only [stepFilters, hloc, ht]
    obtain ⟨out, hgo, hglk⟩ := stepFiltersGeneric_lookup filters T3 kv hv
    refine ⟨out, heq.trans hgo, fun k => ?_⟩
    rw [(chainWrites h123 hglk) k]
    refine if_congr ?_ rfl rfl
    simp [stepWrites, specialWrites, locateWrites, hloc, List.mem_append, or_assoc]
  | undef =>
    have ht : truthy Value.undef = false := rfl
    have heq : stepFilters filters acc kv = stepFiltersGeneric T3 kv := by
      simp only [stepFilters, hloc, ht]
    obtain ⟨out, hgo, hglk⟩ := stepFiltersGeneric_lookup filters T3 kv hv
    refine ⟨out, heq.trans hgo, fun k => ?_⟩
    rw [(chainWrites h123 hglk) k]
    refine if_congr ?_ rfl rfl
    simp [stepWrites, specialWrites, locateWrites, hloc, List.mem_append, or_assoc]
  | num n =>
    rw [hloc] at Hl
    simp only [locateSafe, beq_iff_eq] at Hl
    have ht : truthy (Value.num n) = false := by simp [truthy, Hl]
    have heq : stepFilters filters acc kv = stepFiltersGeneric T3 kv := by
      simp only [stepFilters, hloc, ht]
    obtain ⟨out, hgo, hglk⟩ := stepFiltersGeneric_lookup filters T3 kv hv
    refine ⟨out, heq.trans hgo, fun k => ?_⟩
    rw [(chainWrites h123 hglk) k]
    refine if_congr ?_ rfl rfl
    simp [stepWrites, specialWrites, locateWrites, hloc, List.mem_append, or_assoc]
  | str s =>
    by_cases hs : s = ""
    · subst hs
      have ht : truthy (Value.str "") = false := by simp [truthy]
      have heq : stepFilters filters acc kv = stepFiltersGeneric T3 kv := by
        simp only [stepFilters, hloc, ht]
      obtain ⟨out, hgo, hglk⟩ := stepFiltersGeneric_lookup filters T3 kv hv
      refine ⟨out, heq.trans hgo, fun k => ?_⟩
      rw [(chainWrites h123 hglk) k]
      refine if_congr ?_ rfl rfl
      simp [stepWrites, specialWrites, locateWrites, hloc, List.mem_append, or_assoc]
    · have ht : truthy (Value.str s) = true := by simp [truthy, hs]
      set T4 := (if jsTrim s ≠ "" then
          setKey T3 "locate" (Value.str (jsTrim s)) else T3) with hT4
      set T5 := (if jsTrim s ≠ "" then
          setKey T4 "locate" (Value.str (jsTrim s)) else T4) with hT5
      have heq : stepFilters filters acc kv = stepFiltersGeneric T5 kv := by
        simp only [stepFilters, hloc, ht]
      have hlw := locateWrite_lookup filters T3 s hloc
      obtain ⟨out, hgo, hglk⟩ := stepFiltersGeneric_lookup filters T5 kv hv
      refine ⟨out, heq.trans hgo, fun k => ?_⟩
      rw [(chainWrites (chainWrites h123 hlw) hglk) k]
      refine if_congr ?_ rfl rfl
      simp [stepWrites, specialWrites, locateWrites, hloc, hs, List.mem_append, or_assoc]

/-- Folding the iteration over the remaining entries: no error, and a key
reads back the canonical trimmed value exactly when some remaining entry
writes it. -/
theorem buildFiltersAux_ok (filters : List (String × Value))
    (Hk : pretrimmed (valueOf filters "kyc_status") = true)
    (Hs : pretrimmed (valueOf filters "sortField") = true)
    (Hd : pretrimmed (valueOf filters "sortDirection") = true)
    (Hl : locateSafe (valueOf filters "locate") = true) :
    ∀ (rest : List (String × Value)) (acc : List (String × Value)),
      (∀ kv ∈ rest, valueOf filters kv.1 = kv.2) →
      ∃ out, List.foldlM (stepFilters filters) acc rest = Except.ok out ∧
        ∀ k, out.lookup k =
          if ∃ kv ∈ rest, k ∈ stepWrites filters kv
          then some (trimValue (valueOf filters k))
          else acc.lookup k := by
  intro rest
  induction rest with
  | nil =>
    intro acc _
    refine ⟨acc, rfl, fun k => ?_⟩
    rw [if_neg (by simp)]
  | cons kv rest ih =>
    intro acc hvals
    obtain ⟨mid, hmid, hmidlk⟩ := stepFilters_ok filters Hk Hs Hd Hl acc kv
      (hvals kv (List.mem_cons_self kv rest))
    obtain ⟨out, hout, houtlk⟩ :=
      ih mid (fun p hp => hvals p (List.mem_cons_of_mem kv hp))
    refine ⟨out, ?_, fun k => ?_⟩
    · rw [List.foldlM_cons, hmid]
      exact hout
    · rw [houtlk k]
      by_cases h2 : ∃ p ∈ rest, k ∈ stepWrites filters p
      · obtain ⟨p, hp, hkp⟩ := h2
        rw [if_pos ⟨p, hp, hkp⟩, if_pos ⟨p, List.mem_cons_of_mem kv hp, hkp⟩]
      · rw [if_neg h2, hmidlk k]
        by_cases h1 : k ∈ stepWrites filters kv
        · rw [if_pos h1, if_pos ⟨kv, List.mem_cons_self kv rest, h1⟩]
        · rw [if_neg h1, if_neg ?_]
          rintro ⟨p, hp, hkp⟩
          rcases List.mem_cons.mp hp with rfl | hpr
          · exact h1 hkp
          · exact h2 ⟨p, hpr, hkp⟩

/-- Reading a key of a cons object, distinct key. -/
theorem valueOf_cons_ne (pk : String) (pv : Value)
    (rest : List (String × Value)) (k : String) (h : ¬ k = pk) :
    valueOf ((pk, pv) :: rest) k = valueOf rest k := by
  simp [valueOf, List.lookup_cons, beq_false_of_ne h]

/-- Reading the key of the head entry. -/
theorem valueOf_cons_self (pk : String) (pv : Value)
    (rest : List (String × Value)) :
    valueOf ((pk, pv) :: rest) pk = pv := by
  simp [valueOf, List.lookup_cons]

/-- In an object with distinct keys, every entry reads back its own
value. -/
theorem lookup_self_of_nodup :
    ∀ (l : List (String × Value)), (l.map Prod.fst).Nodup →
      ∀ kv ∈ l, l.lookup kv.1 = some kv.2 := by
  intro l
  induction l with
  | nil => intro _ kv h; cases h
  | cons p rest ih =>
    intro hnd kv hkv
    obtain ⟨pk, pv⟩ := p
    rw [List.map_cons, List.nodup_cons] at hnd
    rcases List.mem_cons.mp hkv with rfl | hmem
    · simp [List.lookup_cons]
    · have hmm := List.mem_map_of_mem Prod.fst hmem
      have hne : ¬ kv.1 = pk := by
        intro hh
        refine hnd.1 ?_
        rw [← hh]
        exact hmm
      simp [List.lookup_cons, beq_false_of_ne hne, ih hnd.2 kv hmem]

/-- Lookup in the claim's cleaned object: present with the trimmed value
exactly for the kept keys. -/
theorem cleanFilters_lookup :
    ∀ (filters : List (String × Value)),
      (filters.map Prod.fst).Nodup → ∀ k : String,
      (cleanFilters filters).lookup k =
        if ∃ kv ∈ filters, kv.1 = k ∧ keepValue kv.2
        then some (trimValue (valueOf filters k)) else none := by
  intro filters
  induction filters with
  | nil => intro _ k; simp [cleanFilters]
  | cons p rest ih =>
    intro hnd k
    obtain ⟨pk, pv⟩ := p
    rw [List.map_cons, List.nodup_cons] at hnd
    obtain ⟨hpk, hnd'⟩ := hnd
    by_cases hkeep : keepValue pv
    · have hclean : cleanFilters ((pk, pv) :: rest) =
          (pk, trimValue pv) :: cleanFilters rest := by
        simp [cleanFilters, hkeep]
      rw [hclean]
      by_cases hk : k = pk
      · subst hk
        rw [if_pos ⟨(k, pv), List.mem_cons_self _ _, rfl, hkeep⟩,
          valueOf_cons_self]
        simp [List.lookup_cons]
      · have hlk : ((pk, trimValue pv) :: cleanFilters rest).lookup k =
            (cleanFilters rest).lookup k := by
          simp [List.lookup_cons, beq_false_of_ne hk]
        rw [hlk, ih hnd' k, valueOf_cons_ne pk pv rest k hk]
        refine if_congr ?_ rfl rfl
        constructor
        · rintro ⟨q, hq, hq1, hq2⟩
          exact ⟨q, List.mem_cons_of_mem _ hq, hq1, hq2⟩
        · rintro ⟨q, hq, hq1, hq2⟩
          rcases List.mem_cons.mp hq with rfl | hqr
          · exact absurd hq1.symm hk
          · exact ⟨q, hqr, hq1, hq2⟩
    · have hclean : cleanFilters ((pk, pv) :: rest) = cleanFilters rest := by
        simp [cleanFilters, hkeep]
      rw [hclean, ih hnd' k]
      by_cases hk : k = pk
      · subst hk
        have hno : ¬ ∃ kv ∈ rest, kv.1 = k ∧ keepValue kv.2 := by
          rintro ⟨q, hq, hq1, -⟩
          have hmm := List.mem_map_of_mem Prod.fst hq
          refine hpk ?_
          rw [← hq1]
          exact hmm
        rw [if_neg hno, if_neg ?_]
        rintro ⟨q, hq, hq1, hq2⟩
        rcases List.mem_cons.mp hq with rfl | hqr
        · exact hkeep hq2
        · exact hno ⟨q, hqr, hq1, hq2⟩
      · rw [valueOf_cons_ne pk pv rest k hk]
        refine if_congr ?_ rfl rfl
        constructor
        · rintro ⟨q, hq, hq1, hq2⟩
          exact ⟨q, List.mem_cons_of_mem _ hq, hq1, hq2⟩
        · rintro ⟨q, hq, hq1, hq2⟩
          rcases List.mem_cons.mp hq with rfl | hqr
          · exact absurd hq1.symm hk
          · exact ⟨q, hqr, hq1, hq2⟩

/-- A successful lookup exhibits a member entry. -/
theorem mem_of_lookup_eq_some :
    ∀ {l : List (String × Value)} {k : String} {v : Value},
      l.lookup k = some v → (k, v) ∈ l := by
  intro l
  induction l with
  | nil => intro k v h; cases h
  | cons p rest ih =>
    intro k v h
    obtain ⟨pk, pv⟩ := p
    by_cases hk : k = pk
    · subst hk
      simp only [List.lookup_cons, beq_self_eq_true] at h
      cases h
      exact List.mem_cons_self _ _
    · rw [List.lookup_cons] at h
      rw [beq_false_of_ne hk] at h
      exact List.mem_cons_of_mem _ (ih h)

/-- A key of the special write list is a present, truthy (hence kept) key
of the object. -/
theorem mem_specialWrites {filters : List (String × Value)} {k : String}
    (h : k ∈ specialWrites filters) :
    ∃ v, filters.lookup k = some v ∧ truthy v = true := by
  have hread : ∀ name : String, truthy (valueOf filters name) = true →
      ∃ v, filters.lookup name = some v ∧ truthy v = true := by
    intro name ht
    cases hlk : filters.lookup name with
    | none =>
      rw [valueOf, hlk] at ht
      exact absurd ht (by decide)
    | some v =>
      rw [valueOf, hlk] at ht
      exact ⟨v, rfl, ht⟩
  simp only [specialWrites, List.mem_append] at h
  rcases h with ((h1 | h2) | h3) | h4
  · by_cases ht : truthy (valueOf filters "kyc_status") = true
    · rw [if_pos ht] at h1
      rcases List.mem_singleton.mp h1 with rfl
      exact hread _ ht
    · rw [if_neg ht] at h1
      cases h1
  · by_cases ht : truthy (valueOf filters "sortField") = true
    · rw [if_pos ht] at h2
      rcases List.mem_singleton.mp h2 with rfl
      exact hread _ ht
    · rw [if_neg ht] at h2
      cases h2
  · by_cases ht : truthy (valueOf filters "sortDirection") = true
    · rw [if_pos ht] at h3
      rcases List.mem_singleton.mp h3 with rfl
      exact hread _ ht
    · rw [if_neg ht] at h3
      cases h3
  · cases hv : valueOf filters "locate" with
    | str s =>
      rw [hv] at h4
      simp only [locateWrites] at h4
      by_cases hc : s ≠ "" ∧ jsTrim s ≠ ""
      · rw [if_pos hc] at h4
        rcases List.mem_singleton.mp h4 with rfl
        refine hread _ ?_
        rw [hv]
        simp [truthy, hc.1]
      · rw [if_neg hc] at h4
        cases h4
    | null => rw [hv] at h4; simp [locateWrites] at h4
    | undef => rw [hv] at h4; simp [locateWrites] at h4
    | num n => rw [hv] at h4; simp [locateWrites] at h4

/-- C8, amended: for an input object with distinct keys in which the
kyc_status, sortField and sortDirection values carry no leading or
trailing whitespace when they are strings, and the locate value is not a
truthy non-string, buildFilters succeeds and its result agrees, key by
key, with the object obtained by dropping null, undefined and
empty-string values and trimming the remaining string values. Outside
that restriction the source diverges: the redundant special-key branches
re-write kyc_status, sortField and sortDirection untrimmed on every later
iteration, and a truthy non-string locate value makes the source throw a
TypeError on locate.trim. -/
theorem buildFilters_clean (filters : List (String × Value))
    (hnd : (filters.map Prod.fst).Nodup)
    (Hk : pretrimmed (valueOf filters "kyc_status") = true)
    (Hs : pretrimmed (valueOf filters "sortField") = true)
    (Hd : pretrimmed (valueOf filters "sortDirection") = true)
    (Hl : locateSafe (valueOf filters "locate") = true) :
    ∃ out, buildFilters filters = Except.ok out ∧
      ∀ k, out.lookup k = (cleanFilters filters).lookup k := by
  have hvals : ∀ kv ∈ filters, valueOf filters kv.1 = kv.2 := by
    intro kv h
    rw [valueOf, lookup_self_of_nodup filters hnd kv h]
    rfl
  obtain ⟨out, hout, hlk⟩ :=
    buildFiltersAux_ok filters Hk Hs Hd Hl filters [] hvals
  refine ⟨out, hout, fun k => ?_⟩
  rw [hlk k, cleanFilters_lookup filters hnd k]
  have hiff : (∃ kv ∈ filters, k ∈ stepWrites filters kv) ↔
      (∃ kv ∈ filters, kv.1 = k ∧ keepValue kv.2) := by
    constructor
    · rintro ⟨kv, hkv, hmem⟩
      rw [stepWrites, List.mem_append] at hmem
      rcases hmem with hsp | hgen
      · obtain ⟨v, hlkup, htr⟩ := mem_specialWrites hsp
        exact ⟨(k, v), mem_of_lookup_eq_some hlkup, rfl, truthy_keepValue htr⟩
      · by_cases hkeep : keepValue kv.2
        · rw [if_pos hkeep] at hgen
          rcases List.mem_singleton.mp hgen with rfl
          exact ⟨kv, hkv, rfl, hkeep⟩
        · rw [if_neg hkeep] at hgen
          cases hgen
    · rintro ⟨kv, hkv, hk1, hkeep⟩
      refine ⟨kv, hkv, ?_⟩
      rw [stepWrites, List.mem_append]
      right
      rw [if_pos hkeep, hk1]
      exact List.mem_singleton.mpr rfl
  by_cases h : ∃ kv ∈ filters, kv.1 = k ∧ keepValue kv.2
  · rw [if_pos (hiff.mpr h), if_pos h]
  · rw [if_neg (fun hh => h (hiff.mp hh)), if_neg h]
    rfl

/-- C8, witness: a concrete object satisfying the restrictions, with a
kept trimmed locate string, a dropped empty string and a kept zero. -/
theorem buildFilters_clean_witness :
    ∃ out, buildFilters
        [("kyc_status", Value.str "ok"), ("locate", Value.str " x "),
         ("w", Value.str ""), ("n", Value.num 0)] = Except.ok out ∧
      ∀ k, out.lookup k = (cleanFilters
        [("kyc_status", Value.str "ok"), ("locate", Value.str " x "),
         ("w", Value.str ""), ("n", Value.num 0)]).lookup k :=
  buildFilters_clean _ (by decide) (by decide) (by decide) (by decide) (by decide)

/-- C8, counterexample: with input { kyc_status: " a ", z: "b" } the
source's redundant kyc_status branch re-writes the untrimmed value after
the generic write of the first iteration has trimmed it, so the result
maps kyc_status to " a " while the claim's drop-and-trim object maps it
to "a". -/
theorem buildFilters_untrimmed_cex :
    buildFilters [("kyc_status", Value.str " a "), ("z", Value.str "b")] =
      Except.ok [("kyc_status", Value.str " a "), ("z", Value.str "b")] ∧
    cleanFilters [("kyc_status", Value.str " a "), ("z", Value.str "b")] =
      [("kyc_status", Value.str "a"), ("z", Value.str "b")] ∧
    ([("kyc_status", Value.str " a "), ("z", Value.str "b")] :
        List (String × Value)).lookup "kyc_status" ≠
      (cleanFilters [("kyc_status", Value.str " a "),
        ("z", Value.str "b")]).lookup "kyc_status" := by
  refine ⟨by decide, by decide, by decide⟩

end CommonHelper
